import Mathlib

/-!
# WebSocket basic stream: frame assembly and serialization

A shallow embedding of the WebSocket frame stream component
(`net/websockets/websocket_basic_stream`), the layer that converts an
event-driven, arbitrarily chunked transport byte stream into discrete
WebSocket frames (RFC 6455) and serializes outbound frames to wire bytes.

The repository provides the unit tests of this component
(`src/net/websockets/websocket_basic_stream_test.cc`); the stream
implementation itself is not among the provided sources, so the operational
definitions below are modelled from the design specification (spec.md,
sections 3, 4.1, 4.2, 6, 7) and validated against the behavior asserted by
those unit tests. Bytes are `Nat` values (< 256 on real inputs), transport
events model the mock socket's `MockRead`/`MockWrite` entries (synchronous or
asynchronous completion), and the asynchronous completion callback is folded
into a single outcome record: `firstPending` records whether the initial call
returned `ERR_IO_PENDING`, and `result` is the final delivered result.
-/

/-- Frame header as surfaced to the caller (`WebSocketFrameHeader` in the
source: `final`, `opcode`, `masked`, `payload_length`). Opcodes are the
4-bit wire values: 0 = Continuation, 1 = Text, 2 = Binary, 8 = Close,
9 = Ping, 10 = Pong. -/
structure WebSocketFrameHeader where
  final : Bool
  opcode : Nat
  masked : Bool
  payload_length : Nat
deriving Repr, DecidableEq

/-- A frame as surfaced to the caller (`WebSocketFrame` in the source):
header plus payload bytes. -/
structure WebSocketFrame where
  header : WebSocketFrameHeader
  data : List Nat
deriving Repr, DecidableEq

def kOpCodeContinuation : Nat := 0
def kOpCodeText : Nat := 1
def kOpCodeBinary : Nat := 2
def kOpCodeClose : Nat := 8
def kOpCodePing : Nat := 9
def kOpCodePong : Nat := 10

/-- Control opcodes are 8..15 (Close, Ping, Pong and reserved control codes);
opcodes are 4-bit so the upper bound is implicit. -/
def isControlOpCode (op : Nat) : Bool := decide (8 ≤ op)

/-- Result of attempting to decode one frame header from buffered bytes. -/
inductive HeaderParse where
  | incomplete
  | invalid
  | ok (h : WebSocketFrameHeader) (rest : List Nat)
deriving Repr, DecidableEq

/-- Modelled from the spec: final step of the FrameParser header decode
(spec.md section 6 wire format); the stream implementation and its
FrameParser collaborator are not among the provided sources. Consumes the
4-byte masking key when the MASK bit is set. -/
def parseMask (fin : Bool) (opcode : Nat) (maskBit : Bool) (plen : Nat)
    (rest : List Nat) : HeaderParse :=
  if maskBit then
    match rest with
    | _ :: _ :: _ :: _ :: rest2 => .ok ⟨fin, opcode, true, plen⟩ rest2
    | _ => .incomplete
  else .ok ⟨fin, opcode, false, plen⟩ rest

/-- Modelled from the spec: the FrameParser header decode (spec.md sections
3, 6): 1 bit FIN, 3 reserved bits (must be zero), 4-bit opcode, 1 bit MASK,
7/7+16/7+64-bit payload length using the minimal legal width (a value
representable in a smaller field encoded in a wider one is a protocol
error). Control frames must have FIN set and a 7-bit length of at most 125;
per the spec invariant this is checked before any extended-length bytes are
examined, since extended encodings are only legal for data frames. Reports
`incomplete` rather than failing on truncation. -/
def parseHeader : List Nat → HeaderParse
  | b0 :: b1 :: rest =>
    let fin : Bool := decide (b0 / 128 % 2 = 1)
    let rsv : Nat := b0 / 16 % 8
    let opcode : Nat := b0 % 16
    let maskBit : Bool := decide (b1 / 128 % 2 = 1)
    let len7 : Nat := b1 % 128
    if rsv ≠ 0 then .invalid
    else if isControlOpCode opcode ∧ (fin = false ∨ 125 < len7) then .invalid
    else if len7 ≤ 125 then parseMask fin opcode maskBit len7 rest
    else if len7 = 126 then
      match rest with
      | e0 :: e1 :: rest2 =>
        if e0 * 256 + e1 < 126 then .invalid
        else parseMask fin opcode maskBit (e0 * 256 + e1) rest2
      | _ => .incomplete
    else
      match rest with
      | e0 :: e1 :: e2 :: e3 :: e4 :: e5 :: e6 :: e7 :: rest2 =>
        let v : Nat :=
          ((((((e0 * 256 + e1) * 256 + e2) * 256 + e3) * 256 + e4) * 256 + e5)
              * 256 + e6) * 256 + e7
        if v < 65536 then .invalid
        else parseMask fin opcode maskBit v rest2
      | _ => .incomplete
  | _ => .incomplete

/-- An in-progress data frame whose header has been decoded but whose payload
has not yet been fully delivered: its wire opcode, its wire FIN bit, and the
number of declared payload bytes still to come. -/
structure CurrentFrame where
  opcode : Nat
  finalBit : Bool
  remaining : Nat
deriving Repr, DecidableEq

/-- A partial control frame accumulator (spec.md `pending_control`): a
control frame's opcode and declared length together with the payload bytes
received so far; only ever created while `acc` is strictly shorter than
`len`. -/
structure PendingControl where
  opcode : Nat
  len : Nat
  acc : List Nat
deriving Repr, DecidableEq

/-- Modelled from the spec: the assembler's ReadState (spec.md section 3).
`buffer` holds bytes read but not yet parsed (the handshake carry-over is
simply the initial contents of `buffer`); `inMessage` is true while earlier
fragments of the current logical data message have already been surfaced to
the caller, forcing later surfaced fragments to opcode Continuation;
`current` tracks a data frame whose payload is still arriving;
`pendingControl` accumulates a split control frame. -/
structure ReadState where
  buffer : List Nat
  inMessage : Bool
  current : Option CurrentFrame
  pendingControl : Option PendingControl
deriving Repr, DecidableEq

def initState : ReadState := ⟨[], false, none, none⟩

/-- Stream state at construction with handshake carry-over bytes `carry`
(spec.md section 6: consumed exactly once, before any new transport read). -/
def mkState (carry : List Nat) : ReadState := ⟨carry, false, none, none⟩

/-- Modelled from the spec: fragmentation policy for a data frame (spec.md
section 4.1 step 3). Given the bytes available in `s.buffer` for the current
data frame `c`: if all `c.remaining` declared bytes are available the frame
is surfaced with its true FIN bit and the message ends (or continues with
wire continuations); if some but not all are available, the available bytes
are surfaced as one fragment with `final = false` and the message is marked
in progress; if none are available nothing is surfaced. A surfaced fragment
carries the original opcode unless earlier fragments of the message were
already surfaced, in which case it carries Continuation. -/
def emitData (s : ReadState) (c : CurrentFrame) :
    Option WebSocketFrame × ReadState :=
  if c.remaining ≤ s.buffer.length then
    (some ⟨⟨c.finalBit, if s.inMessage then kOpCodeContinuation else c.opcode,
            false, c.remaining⟩, s.buffer.take c.remaining⟩,
     { s with buffer := s.buffer.drop c.remaining, current := none,
              inMessage := !c.finalBit })
  else if s.buffer.length = 0 then
    (none, { s with current := some c })
  else
    (some ⟨⟨false, if s.inMessage then kOpCodeContinuation else c.opcode,
            false, s.buffer.length⟩, s.buffer⟩,
     { s with buffer := [],
              current := some { c with remaining := c.remaining - s.buffer.length },
              inMessage := true })

/-- Modelled from the spec: one pass of the assembler over the buffered
bytes (spec.md section 4.1 steps 2 and 3): repeatedly resume a pending
control frame, resume an in-progress data frame, or decode a new header and
apply the control/data policy, until no further progress is possible without
more transport bytes. Errors (`Except.error`) are structural protocol
violations. `fuel` bounds the recursion; every recursive call consumes at
least one buffered byte, so `buffer.length + 1` is always sufficient. -/
def processBuffer : Nat → ReadState → Except Unit (List WebSocketFrame × ReadState)
  | 0, s => .ok ([], s)
  | fuel + 1, s =>
    match s.pendingControl with
    | some pc =>
      if pc.len ≤ pc.acc.length + s.buffer.length then
        match processBuffer fuel
            { s with pendingControl := none,
                     buffer := s.buffer.drop (pc.len - pc.acc.length) } with
        | .error e => .error e
        | .ok (fs, s1) =>
          .ok (⟨⟨true, pc.opcode, false, pc.len⟩,
                pc.acc ++ s.buffer.take (pc.len - pc.acc.length)⟩ :: fs, s1)
      else
        .ok ([], { s with pendingControl := some { pc with acc := pc.acc ++ s.buffer },
                          buffer := [] })
    | none =>
      match s.current with
      | some c =>
        match emitData { s with current := none } c with
        | (some f, s1) =>
          match processBuffer fuel s1 with
          | .error e => .error e
          | .ok (fs, s2) => .ok (f :: fs, s2)
        | (none, s1) => .ok ([], s1)
      | none =>
        match parseHeader s.buffer with
        | .incomplete => .ok ([], s)
        | .invalid => .error ()
        | .ok h rest =>
          if isControlOpCode h.opcode then
            if h.payload_length ≤ rest.length then
              match processBuffer fuel
                  { s with buffer := rest.drop h.payload_length } with
              | .error e => .error e
              | .ok (fs, s1) =>
                .ok (⟨⟨true, h.opcode, false, h.payload_length⟩,
                      rest.take h.payload_length⟩ :: fs, s1)
            else
              .ok ([], { s with buffer := [],
                                pendingControl := some ⟨h.opcode, h.payload_length, rest⟩ })
          else
            match emitData { s with buffer := rest, current := none }
                ⟨h.opcode, h.final, h.payload_length⟩ with
            | (some f, s1) =>
              match processBuffer fuel s1 with
              | .error e => .error e
              | .ok (fs, s2) => .ok (f :: fs, s2)
            | (none, s1) => .ok ([], s1)

/-- One buffer pass with always-sufficient fuel. -/
def processB (s : ReadState) : Except Unit (List WebSocketFrame × ReadState) :=
  processBuffer (s.buffer.length + 1) s

/-- Whether a mock transport operation completes synchronously or
asynchronously (the `SYNCHRONOUS` / `ASYNC` modes of `MockRead`/`MockWrite`). -/
inductive IoMode where
  | sync
  | async
deriving Repr, DecidableEq

/-- Chromium net error codes used by the tests. -/
def ERR_CONNECTION_CLOSED : Int := -100

def ERR_INSUFFICIENT_RESOURCES : Int := -12

/-- One mock transport read completion (a `MockRead`): delivery of bytes
(empty meaning orderly close), a transport error code, or a read that blocks
forever (`MockRead(SYNCHRONOUS, ERR_IO_PENDING)` in the tests). -/
inductive ReadEv where
  | data (m : IoMode) (bytes : List Nat)
  | fail (m : IoMode) (code : Int)
  | hang
deriving Repr, DecidableEq

/-- Result of a read or write operation, as observed by the caller once the
operation has settled. `ioPending` means the operation suspended and no
completion was ever delivered (used for reads that block forever). -/
inductive StreamResult where
  | ok
  | ioPending
  | connectionClosed
  | wsProtocolError
  | ioFail (code : Int)
deriving Repr, DecidableEq

/-- The caller-observable outcome of one `ReadFrames` operation:
`firstPending` is whether the initial call returned `ERR_IO_PENDING` (the
result then being delivered through the completion callback), `result` the
delivered result, `frames` the frames appended to the caller's vector,
`state` the assembler state afterwards, and `rest` the transport events not
consumed by this operation. -/
structure ReadOutcome where
  firstPending : Bool
  result : StreamResult
  frames : List WebSocketFrame
  state : ReadState
  rest : List ReadEv
deriving Repr, DecidableEq

/-- Modelled from the spec: the `readFrames` operation (spec.md section 4.1;
the `WebSocketBasicStream::ReadFrames` implementation is not among the
provided sources). Buffered bytes (including any handshake carry-over) are
parsed first; if that yields at least one frame the operation completes with
Ok; otherwise transport reads are issued one at a time until a frame can be
surfaced or a terminal condition occurs. A zero-length read or an
`ERR_CONNECTION_CLOSED` transport error yields ConnectionClosed; any other
transport error passes through; a structural violation yields
wsProtocolError with no frames surfaced by this pass. `susp` accumulates
whether an asynchronous wait has already occurred. -/
def readFramesOp : List ReadEv → ReadState → Bool → ReadOutcome
  | [], s, susp =>
    match processB s with
    | .error _ => ⟨susp, .wsProtocolError, [], { s with pendingControl := none }, []⟩
    | .ok (fs, s1) =>
      if fs.isEmpty then ⟨susp, .connectionClosed, [], s1, []⟩
      else ⟨susp, .ok, fs, s1, []⟩
  | ev :: evs1, s, susp =>
    match processB s with
    | .error _ =>
      ⟨susp, .wsProtocolError, [], { s with pendingControl := none }, ev :: evs1⟩
    | .ok (fs, s1) =>
      if fs.isEmpty then
        match ev with
        | .data m bytes =>
          if bytes.isEmpty then
            ⟨susp || (m == .async), .connectionClosed, [], s1, evs1⟩
          else
            readFramesOp evs1 { s1 with buffer := s1.buffer ++ bytes }
              (susp || (m == .async))
        | .fail m code =>
          ⟨susp || (m == .async),
           if code = ERR_CONNECTION_CLOSED then .connectionClosed else .ioFail code,
           [], s1, evs1⟩
        | .hang => ⟨true, .ioPending, [], s1, evs1⟩
      else ⟨susp, .ok, fs, s1, ev :: evs1⟩

/-- All frames surfaced by repeatedly calling `ReadFrames` until a call does
not complete with Ok. `fuel` bounds the number of calls; each completed call
at a quiescent state consumes at least one transport event, so
`evs.length + 1` is always sufficient for runs starting from a quiescent
state. -/
def collectFrames : Nat → ReadState → List ReadEv → List WebSocketFrame
  | 0, _, _ => []
  | n + 1, s, evs =>
    let o := readFramesOp evs s false
    if o.result = .ok then o.frames ++ collectFrames n o.state o.rest else []

/-- Wire encoding of a single unmasked frame with a 7-bit payload length:
FIN set, reserved bits clear, opcode `op`, then the payload. -/
def wireFrame (op : Nat) (P : List Nat) : List Nat := (128 + op) :: P.length :: P

/-- The assembler state after consuming exactly `p` wire bytes of the data
frame `wireFrame op D` (for `p < 2 + D.length`): for `p ≤ 1` the partial
header sits unparsed in the buffer; afterwards the header has been decoded
and `D.length - (p - 2)` payload bytes are still expected, with fragments
surfaced so far exactly when `2 < p`. -/
def dataState (op : Nat) (D : List Nat) (p : Nat) : ReadState :=
  if p ≤ 1 then ⟨(wireFrame op D).take p, false, none, none⟩
  else ⟨[], decide (2 < p), some ⟨op, true, D.length - (p - 2)⟩, none⟩

/-- The assembler state after consuming exactly `p` wire bytes of the
control frame `wireFrame op P` (for `p < 2 + P.length`): for `p ≤ 1` the
partial header sits unparsed in the buffer; afterwards the first `p - 2`
payload bytes are held in the pending-control accumulator. -/
def ctrlState (op : Nat) (P : List Nat) (p : Nat) : ReadState :=
  if p ≤ 1 then ⟨(wireFrame op P).take p, false, none, none⟩
  else ⟨[], false, none, some ⟨op, P.length, P.take (p - 2)⟩⟩

/-- The single complete frame surfaced for a control frame `wireFrame op P`. -/
def ctrlFrame (op : Nat) (P : List Nat) : WebSocketFrame :=
  ⟨⟨true, op, false, P.length⟩, P⟩

/-- The properties claimed of the fragment sequence surfaced for the suffix
of a single data frame `wireFrame op D` starting at wire position `p`: at
least one fragment; the first carries the original opcode unless fragments
were already surfaced before position `p` (then Continuation); all later
ones carry Continuation; only the last is final; and the fragment payloads
concatenate to the remaining declared payload. -/
def fragProp (op : Nat) (D : List Nat) (p : Nat) (fs : List WebSocketFrame) : Prop :=
  fs ≠ [] ∧
  fs.head?.map (fun f => f.header.opcode)
    = some (if 2 < p then kOpCodeContinuation else op) ∧
  (∀ f ∈ fs.tail, f.header.opcode = kOpCodeContinuation) ∧
  (∀ f ∈ fs.dropLast, f.header.final = false) ∧
  fs.getLast?.map (fun f => f.header.final) = some true ∧
  (fs.map (fun f => f.data)).flatten = D.drop (p - 2)

/-- The fragment surfaced when the assembler, having consumed `p` wire bytes
of the data frame `wireFrame op D`, consumes up to wire position `q`. -/
def fragAt (op : Nat) (D : List Nat) (p q : Nat) : WebSocketFrame :=
  ⟨⟨decide (q = 2 + D.length),
    if 2 < p then kOpCodeContinuation else op, false, q - max p 2⟩,
   (D.drop (p - 2)).take (q - max p 2)⟩

/-- Well-formedness of the pending-control accumulator: it only exists while
strictly shorter than the declared control payload length. -/
def pcWf (s : ReadState) : Prop :=
  ∀ pc, s.pendingControl = some pc → pc.acc.length < pc.len

/-- One mock transport write completion (a `MockWrite`): acceptance of `n`
bytes, or a transport error. -/
inductive WriteEv where
  | accept (m : IoMode) (n : Nat)
  | fail (m : IoMode) (code : Int)
deriving Repr, DecidableEq

/-- The caller-observable outcome of one `WriteFrames` operation. -/
structure WriteOutcome where
  firstPending : Bool
  result : StreamResult
  written : Nat
  rest : List WriteEv
deriving Repr, DecidableEq

/-- Minimal-width wire encoding of a payload length (spec.md section 6):
values up to 125 in the 7-bit field, up to 65535 in the 16-bit extension,
larger in the 64-bit extension. -/
def lenBytes (n : Nat) : List Nat :=
  if n ≤ 125 then [n]
  else if n < 65536 then [126, n / 256 % 256, n % 256]
  else [127, n / 2 ^ 56 % 256, n / 2 ^ 48 % 256, n / 2 ^ 40 % 256,
        n / 2 ^ 32 % 256, n / 2 ^ 24 % 256, n / 2 ^ 16 % 256,
        n / 256 % 256, n % 256]

/-- Payload bytes XORed with the repeating 4-byte masking key. -/
def maskPayload (key : List Nat) (d : List Nat) : List Nat :=
  d.enum.map (fun p => Nat.xor p.2 (key.getD (p.1 % 4) 0))

/-- Modelled from the spec: the FrameSerializer's encoding of one outbound
frame (spec.md section 4.2; the implementation is not among the provided
sources): header with FIN bit, opcode and the MASK bit set, minimal-width
payload length, the 4-byte masking key, then the masked payload. -/
def serializeFrame (key : List Nat) (f : WebSocketFrame) : List Nat :=
  ((if f.header.final then 128 else 0) + f.header.opcode)
    :: (128 + (lenBytes f.header.payload_length).headD 0)
    :: ((lenBytes f.header.payload_length).tail ++ key ++ maskPayload key f.data)

/-- Serialization of a frame list into one logical write buffer, each frame
using a fresh key from the injectable masking-key generator `gen`. -/
def serializeFrames (gen : Nat → List Nat) (frames : List WebSocketFrame) : List Nat :=
  (frames.enum.map (fun p => serializeFrame (gen p.1) p.2)).flatten

/-- Modelled from the spec: the write loop of `writeFrames` (spec.md section
4.2): drive transport writes, advancing the cursor by the number of bytes
accepted each time; a partial write only causes another write; completion
(Ok) is delivered exactly when the cursor reaches the end of the buffer; a
transport error aborts the whole operation and is surfaced unchanged. -/
def writeLoop : List WriteEv → Nat → Nat → Bool → WriteOutcome
  | [], total, cursor, susp =>
    if total ≤ cursor then ⟨susp, .ok, cursor, []⟩
    else ⟨susp, .ioPending, cursor, []⟩
  | ev :: evs1, total, cursor, susp =>
    if total ≤ cursor then ⟨susp, .ok, cursor, ev :: evs1⟩
    else
      match ev with
      | .accept m n => writeLoop evs1 total (cursor + n) (susp || (m == .async))
      | .fail m code => ⟨susp || (m == .async), .ioFail code, cursor, evs1⟩

/-- The `writeFrames` operation: serialize all frames into one buffer and
drive the write loop over the given transport write completions. -/
def WriteFrames (gen : Nat → List Nat) (frames : List WebSocketFrame)
    (evs : List WriteEv) : WriteOutcome :=
  writeLoop evs (serializeFrames gen frames).length 0 false

/-! ## Test vectors from `websocket_basic_stream_test.cc` -/

/-- `"\x81\x06Sample"`: one final Text frame with payload "Sample". -/
def kSampleFrame : List Nat := [129, 6, 83, 97, 109, 112, 108, 101]

/-- `"\x81\x7F\x00\x00\x00\x00\x7F\xFF\xFF\xFF" ++ 61 payload bytes`: a
final Text frame declaring a 64-bit payload length of 0x7FFFFFFF, of which
only the first 61 payload bytes are ever delivered. -/
def kPartialLargeFrame : List Nat :=
  [129, 127, 0, 0, 0, 0, 127, 255, 255, 255] ++
  [99, 104, 114, 111, 109, 105, 117, 110, 117, 109, 32, 97, 100, 32, 112, 97,
   115, 99, 111, 32, 112, 101, 114, 32, 108, 111, 99, 97, 32, 105, 110, 115,
   97, 110, 105, 115, 32, 112, 117, 108, 108, 117, 109, 32, 109, 97, 110, 100,
   117, 99, 97, 116, 32, 102, 114, 117, 109, 101, 110, 116, 105]

/-- `"\x88\x09\x03\xe8occludo"`: a Close frame with a 9-byte payload. -/
def kCloseFrame : List Nat := [136, 9, 3, 232, 111, 99, 99, 108, 117, 100, 111]

/-- `"\x8a\x7e\x00\x7e" ++ 126 * 'Z'`: a Pong frame declaring a 126-byte
payload (overlong for a control frame). -/
def k126BytePong : List Nat := [138, 126, 0, 126] ++ List.replicate 126 90

/-- `"\x81\x7E\x00\x07Invalid"`: payload length 7 encoded in the 16-bit
extension, which is always invalid. -/
def kInvalidFrame : List Nat := [129, 126, 0, 7, 73, 110, 118, 97, 108, 105, 100]

/-- `"\x09\x00"`: a Ping header without the FIN bit. -/
def kPingFrameWithoutFin : List Nat := [9, 0]

/-- `"\x81\x85\x00\x00\x00\x00Write"`: the serialized form of a masked final
Text frame with payload "Write" under the null masking key. -/
def kWriteFrame : List Nat := [129, 133, 0, 0, 0, 0, 87, 114, 105, 116, 101]

/-- The frame handed to `WriteFrames` by the write tests: final, masked,
Text, payload "Write". -/
def kWriteTestFrame : WebSocketFrame :=
  ⟨⟨true, kOpCodeText, true, 5⟩, [87, 114, 105, 116, 101]⟩

/-- The null masking-key generator used by the tests. -/
def nulKeyGen : Nat → List Nat := fun _ => [0, 0, 0, 0]

/-! ## Unfolding and single-pass lemmas -/

theorem readFramesOp_error {s : ReadState} (h : processB s = .error ())
    (evs : List ReadEv) (susp : Bool) :
    readFramesOp evs s susp
      = ⟨susp, .wsProtocolError, [], { s with pendingControl := none }, evs⟩ := by
  cases evs <;> simp only [readFramesOp, h]

theorem readFramesOp_surface {s s1 : ReadState} {f : WebSocketFrame}
    {fs : List WebSocketFrame} (h : processB s = .ok (f :: fs, s1))
    (evs : List ReadEv) (susp : Bool) :
    readFramesOp evs s susp = ⟨susp, .ok, f :: fs, s1, evs⟩ := by
  cases evs <;> simp only [readFramesOp, h, List.isEmpty_cons, Bool.false_eq_true,
    if_false, ite_false]

theorem readFramesOp_quiet_nil {s s1 : ReadState} (h : processB s = .ok ([], s1))
    (susp : Bool) :
    readFramesOp [] s susp = ⟨susp, .connectionClosed, [], s1, []⟩ := by
  simp only [readFramesOp, h, List.isEmpty_nil, if_true, ite_true]

theorem readFramesOp_quiet_close {s s1 : ReadState} (h : processB s = .ok ([], s1))
    (m : IoMode) (evs : List ReadEv) (susp : Bool) :
    readFramesOp (.data m [] :: evs) s susp
      = ⟨susp || (m == .async), .connectionClosed, [], s1, evs⟩ := by
  simp only [readFramesOp, h, List.isEmpty_nil, if_true, ite_true]

theorem readFramesOp_quiet_data {s s1 : ReadState} {bytes : List Nat}
    (h : processB s = .ok ([], s1)) (hb : bytes ≠ [])
    (m : IoMode) (evs : List ReadEv) (susp : Bool) :
    readFramesOp (.data m bytes :: evs) s susp
      = readFramesOp evs { s1 with buffer := s1.buffer ++ bytes } (susp || (m == .async)) := by
  simp only [readFramesOp, h, List.isEmpty_nil, if_true, ite_true,
    List.isEmpty_eq_true, hb, if_false, ite_false]

theorem readFramesOp_quiet_fail {s s1 : ReadState} (h : processB s = .ok ([], s1))
    (m : IoMode) (code : Int) (evs : List ReadEv) (susp : Bool) :
    readFramesOp (.fail m code :: evs) s susp
      = ⟨susp || (m == .async),
         if code = ERR_CONNECTION_CLOSED then .connectionClosed else .ioFail code,
         [], s1, evs⟩ := by
  simp only [readFramesOp, h, List.isEmpty_nil, if_true, ite_true]

theorem readFramesOp_quiet_hang {s s1 : ReadState} (h : processB s = .ok ([], s1))
    (evs : List ReadEv) (susp : Bool) :
    readFramesOp (.hang :: evs) s susp = ⟨true, .ioPending, [], s1, evs⟩ := by
  simp only [readFramesOp, h, List.isEmpty_nil, if_true, ite_true]

theorem readFramesOp_align {s t : ReadState} (hs : processB s = .ok ([], t))
    (ht : processB t = .ok ([], t)) (evs : List ReadEv) (a : Bool) :
    readFramesOp evs s a = readFramesOp evs t a := by
  cases evs <;> simp only [readFramesOp, hs, ht]

theorem parseHeader_simple {op L : Nat} (hop : op < 16) (hL : L ≤ 125)
    (rest : List Nat) :
    parseHeader ((128 + op) :: L :: rest) = .ok ⟨true, op, false, L⟩ rest := by
  have h1 : (128 + op) / 128 % 2 = 1 := by omega
  have h2 : (128 + op) / 16 % 8 = 0 := by omega
  have h3 : (128 + op) % 16 = op := by omega
  have h4 : L / 128 % 2 = 0 := by omega
  have h5 : L % 128 = L := by omega
  have h6 : op / 128 = 0 := by omega
  simp [parseHeader, h1, h2, h3, h4, h5, h6, parseMask, hL, Nat.not_lt.mpr hL]

theorem parseHeader_overlong {op : Nat} (hop8 : 8 ≤ op) (hop : op < 16)
    (rest : List Nat) :
    parseHeader ((128 + op) :: 126 :: rest) = .invalid := by
  have h1 : (128 + op) / 128 % 2 = 1 := by omega
  have h2 : (128 + op) / 16 % 8 = 0 := by omega
  have h3 : (128 + op) % 16 = op := by omega
  simp [parseHeader, h1, h2, h3, isControlOpCode, hop8]

theorem parseHeader_nil : parseHeader [] = .incomplete := rfl

theorem processB_nil (im : Bool) :
    processB ⟨[], im, none, none⟩ = .ok ([], ⟨[], im, none, none⟩) := rfl

theorem processB_one (b : Nat) (im : Bool) :
    processB ⟨[b], im, none, none⟩ = .ok ([], ⟨[b], im, none, none⟩) := rfl

theorem processB_wait {r : Nat} (hr : 0 < r) (im fb : Bool) (op : Nat) :
    processB ⟨[], im, some ⟨op, fb, r⟩, none⟩
      = .ok ([], ⟨[], im, some ⟨op, fb, r⟩, none⟩) := by
  simp [processB, processBuffer, emitData, Nat.not_le.mpr hr]

theorem processB_data_part {r : Nat} {c : List Nat} (hc : c ≠ [])
    (hlt : c.length < r) (im fb : Bool) (op : Nat) :
    processB ⟨c, im, some ⟨op, fb, r⟩, none⟩
      = .ok ([⟨⟨false, if im then kOpCodeContinuation else op, false, c.length⟩, c⟩],
             ⟨[], true, some ⟨op, fb, r - c.length⟩, none⟩) := by
  obtain ⟨a, t, rfl⟩ := List.exists_cons_of_ne_nil hc
  have h1 : ¬ (r ≤ (a :: t).length) := Nat.not_le.mpr hlt
  have h2 : ¬ (r - (a :: t).length ≤ 0) := by
    simp only [List.length_cons] at hlt ⊢
    omega
  simp only [List.length_cons] at h1 h2
  simp [processB, processBuffer, emitData, parseHeader_nil, h1, h2]

theorem processB_data_complete {c : List Nat} (hc : c ≠ []) (im fb : Bool) (op : Nat) :
    processB ⟨c, im, some ⟨op, fb, c.length⟩, none⟩
      = .ok ([⟨⟨fb, if im then kOpCodeContinuation else op, false, c.length⟩, c⟩],
             ⟨[], !fb, none, none⟩) := by
  obtain ⟨a, t, rfl⟩ := List.exists_cons_of_ne_nil hc
  simp [processB, processBuffer, emitData, parseHeader_nil]

theorem processB_header_data_wait {op L : Nat} (hop : op < 8) (hL : L ≤ 125)
    (hL0 : 0 < L) (im : Bool) :
    processB ⟨[128 + op, L], im, none, none⟩
      = .ok ([], ⟨[], im, some ⟨op, true, L⟩, none⟩) := by
  have hc : isControlOpCode op = false := by simp [isControlOpCode]; omega
  simp [processB, processBuffer, emitData,
    parseHeader_simple (by omega : op < 16) hL, hc, Nat.not_le.mpr hL0]

theorem processB_header_data_part {op L : Nat} {t : List Nat} (hop : op < 8)
    (hL : L ≤ 125) (ht : t ≠ []) (hlt : t.length < L) (im : Bool) :
    processB ⟨(128 + op) :: L :: t, im, none, none⟩
      = .ok ([⟨⟨false, if im then kOpCodeContinuation else op, false, t.length⟩, t⟩],
             ⟨[], true, some ⟨op, true, L - t.length⟩, none⟩) := by
  have hc : isControlOpCode op = false := by simp [isControlOpCode]; omega
  obtain ⟨a, u, rfl⟩ := List.exists_cons_of_ne_nil ht
  have h1 : ¬ (L ≤ (a :: u).length) := Nat.not_le.mpr hlt
  have h2 : ¬ (L - (a :: u).length ≤ 0) := by
    simp only [List.length_cons] at hlt ⊢
    omega
  simp only [List.length_cons] at h1 h2
  simp [processB, processBuffer, emitData, parseHeader_nil,
    parseHeader_simple (by omega : op < 16) hL, hc, h1, h2]

theorem processB_header_data_complete {op : Nat} {t : List Nat} (hop : op < 8)
    (hL : t.length ≤ 125) (im : Bool) :
    processB ⟨(128 + op) :: t.length :: t, im, none, none⟩
      = .ok ([⟨⟨true, if im then kOpCodeContinuation else op, false, t.length⟩, t⟩],
             ⟨[], false, none, none⟩) := by
  have hc : isControlOpCode op = false := by simp [isControlOpCode]; omega
  simp [processB, processBuffer, emitData, parseHeader_nil,
    parseHeader_simple (by omega : op < 16) hL, hc]

theorem processB_header_ctrl_stash {op n : Nat} {t : List Nat} (hop8 : 8 ≤ op)
    (hop : op < 16) (hn : n ≤ 125) (hlt : t.length < n) (im : Bool) :
    processB ⟨(128 + op) :: n :: t, im, none, none⟩
      = .ok ([], ⟨[], im, none, some ⟨op, n, t⟩⟩) := by
  have hc : isControlOpCode op = true := by simp [isControlOpCode, hop8]
  simp [processB, processBuffer, parseHeader_simple hop hn, hc, Nat.not_le.mpr hlt]

theorem processB_header_ctrl_complete {op : Nat} {t : List Nat} (hop8 : 8 ≤ op)
    (hop : op < 16) (hn : t.length ≤ 125) (im : Bool) :
    processB ⟨(128 + op) :: t.length :: t, im, none, none⟩
      = .ok ([⟨⟨true, op, false, t.length⟩, t⟩], ⟨[], im, none, none⟩) := by
  have hc : isControlOpCode op = true := by simp [isControlOpCode, hop8]
  simp [processB, processBuffer, parseHeader_nil, parseHeader_simple hop hn, hc]

theorem processB_ctrl_absorb {n : Nat} {acc c : List Nat}
    (hlt : acc.length + c.length < n) (op : Nat) (im : Bool) :
    processB ⟨c, im, none, some ⟨op, n, acc⟩⟩
      = .ok ([], ⟨[], im, none, some ⟨op, n, acc ++ c⟩⟩) := by
  simp [processB, processBuffer, Nat.not_le.mpr hlt]

theorem processB_ctrl_complete {n : Nat} {acc c : List Nat}
    (hacc : acc.length < n) (heq : acc.length + c.length = n) (op : Nat) (im : Bool) :
    processB ⟨c, im, none, some ⟨op, n, acc⟩⟩
      = .ok ([⟨⟨true, op, false, n⟩, acc ++ c⟩], ⟨[], im, none, none⟩) := by
  have hc : c ≠ [] := by
    intro hnil
    rw [hnil] at heq
    simp at heq
    omega
  obtain ⟨a, u, rfl⟩ := List.exists_cons_of_ne_nil hc
  have h1 : n ≤ acc.length + (a :: u).length := by omega
  have h2 : n - acc.length = (a :: u).length := by
    simp only [List.length_cons] at heq ⊢
    omega
  simp only [List.length_cons] at h1 h2
  simp [processB, processBuffer, parseHeader_nil, h1, h2]

theorem readFramesOp_susp_irrel (evs : List ReadEv) :
    ∀ (s : ReadState) (a b : Bool),
      (readFramesOp evs s a).result = (readFramesOp evs s b).result ∧
      (readFramesOp evs s a).frames = (readFramesOp evs s b).frames ∧
      (readFramesOp evs s a).state = (readFramesOp evs s b).state ∧
      (readFramesOp evs s a).rest = (readFramesOp evs s b).rest := by
  induction evs with
  | nil =>
    intro s a b
    cases h : processB s with
    | error e =>
      cases e
      simp [readFramesOp_error h]
    | ok p =>
      obtain ⟨fs, s1⟩ := p
      cases fs with
      | nil => simp [readFramesOp_quiet_nil h]
      | cons f fs => simp [readFramesOp_surface h]
  | cons ev evs ih =>
    intro s a b
    cases h : processB s with
    | error e =>
      cases e
      simp [readFramesOp_error h]
    | ok p =>
      obtain ⟨fs, s1⟩ := p
      cases fs with
      | cons f fs => simp [readFramesOp_surface h]
      | nil =>
        cases ev with
        | data m bytes =>
          cases bytes with
          | nil => simp [readFramesOp_quiet_close h]
          | cons x xs =>
            rw [readFramesOp_quiet_data h (by simp), readFramesOp_quiet_data h (by simp)]
            exact ih _ _ _
        | fail m code => simp [readFramesOp_quiet_fail h]
        | hang => simp [readFramesOp_quiet_hang h]

theorem wireFrame_drop {op : Nat} {P : List Nat} {p : Nat} (hp : 2 ≤ p) :
    (wireFrame op P).drop p = P.drop (p - 2) := by
  obtain ⟨k, rfl⟩ : ∃ k, p = k + 2 := ⟨p - 2, by omega⟩
  simp [wireFrame]

theorem wireFrame_take {op : Nat} {P : List Nat} {p : Nat} (hp : 2 ≤ p) :
    (wireFrame op P).take p = (128 + op) :: P.length :: P.take (p - 2) := by
  obtain ⟨k, rfl⟩ : ∃ k, p = k + 2 := ⟨p - 2, by omega⟩
  simp [wireFrame]

theorem wireFrame_length {op : Nat} {P : List Nat} :
    (wireFrame op P).length = 2 + P.length := by
  simp [wireFrame]
  omega

theorem processB_ctrlState {op : Nat} {P : List Nat} {p : Nat}
    (hp : p < 2 + P.length) :
    processB (ctrlState op P p) = .ok ([], ctrlState op P p) := by
  by_cases h1 : p ≤ 1
  · interval_cases p
    · simpa [ctrlState, wireFrame] using processB_nil false
    · simpa [ctrlState, wireFrame] using processB_one (128 + op) false
  · have hlen : (P.take (p - 2)).length = p - 2 := by
      simp [List.length_take]
      omega
    rw [ctrlState, if_neg h1]
    have habs := @processB_ctrl_absorb P.length (P.take (p - 2)) []
      (by simp [hlen]; omega) op false
    simpa using habs

theorem processB_dataState {op : Nat} {D : List Nat} {p : Nat}
    (hp : p < 2 + D.length) :
    processB (dataState op D p) = .ok ([], dataState op D p) := by
  by_cases h1 : p ≤ 1
  · interval_cases p
    · simpa [dataState, wireFrame] using processB_nil false
    · simpa [dataState, wireFrame] using processB_one (128 + op) false
  · rw [dataState, if_neg h1]
    exact processB_wait (by omega) _ _ _

theorem processB_ctrl_feed {op : Nat} (hop8 : 8 ≤ op) (hop : op < 16)
    {P : List Nat} (hP : P.length ≤ 125) {p : Nat} {c : List Nat}
    (hc : c ≠ []) (hq : p + c.length < 2 + P.length)
    (hcval : c = ((wireFrame op P).drop p).take c.length) :
    processB { ctrlState op P p with buffer := (ctrlState op P p).buffer ++ c }
      = .ok ([], ctrlState op P (p + c.length)) := by
  have hcpos : 0 < c.length := List.length_pos.mpr hc
  by_cases h1 : p ≤ 1
  · by_cases hq1 : p + c.length ≤ 1
    · have hp0 : p = 0 := by omega
      have hcl : c.length = 1 := by omega
      have hc1 : c = [128 + op] := by
        conv_lhs => rw [hcval]
        rw [hp0, hcl]
        simp [wireFrame]
      subst hp0
      rw [ctrlState, if_pos h1, ctrlState, if_pos hq1, hcl]
      simp only [hc1]
      have h0 : (wireFrame op P).take 0 = [] := by simp
      have h01 : (wireFrame op P).take (0 + 1) = [128 + op] := by simp [wireFrame]
      rw [h0, h01]
      simpa using processB_one (128 + op) false
    · have h2q : 2 ≤ p + c.length := by omega
      have hsplit : (wireFrame op P).take p ++ c = (wireFrame op P).take (p + c.length) := by
        conv_lhs => rw [hcval]
        rw [← List.take_add]
      have htk : (P.take (p + c.length - 2)).length < P.length := by
        simp only [List.length_take]
        omega
      rw [ctrlState, if_pos h1, ctrlState, if_neg hq1]
      simp only [hsplit, wireFrame_take h2q]
      exact processB_header_ctrl_stash hop8 hop hP htk false
  · have h2 : 2 ≤ p := by omega
    have hq1 : ¬ (p + c.length ≤ 1) := by omega
    have hcval2 : c = (P.drop (p - 2)).take c.length := by
      conv_lhs => rw [hcval]
      rw [wireFrame_drop h2]
    have hacc : (P.take (p - 2)).length + c.length < P.length := by
      simp only [List.length_take]
      omega
    have happ : P.take (p - 2) ++ c = P.take (p + c.length - 2) := by
      conv_lhs => rw [hcval2]
      rw [← List.take_add]
      congr 1
      omega
    rw [ctrlState, if_neg h1, ctrlState, if_neg hq1]
    simp only [List.nil_append]
    rw [processB_ctrl_absorb hacc op false, happ]

theorem processB_ctrl_feed_last {op : Nat} (hop8 : 8 ≤ op) (hop : op < 16)
    {P : List Nat} (hP : P.length ≤ 125) {p : Nat} {c : List Nat}
    (hp : p < 2 + P.length) (hcfull : c = (wireFrame op P).drop p) :
    processB { ctrlState op P p with buffer := (ctrlState op P p).buffer ++ c }
      = .ok ([ctrlFrame op P], initState) := by
  by_cases h1 : p ≤ 1
  · interval_cases p
    · rw [ctrlState, if_pos (by omega : (0:Nat) ≤ 1)]
      have hd : (wireFrame op P).drop 0 = (128 + op) :: P.length :: P := by
        simp [wireFrame]
      rw [hcfull, hd]
      simpa [wireFrame, ctrlFrame, initState] using
        processB_header_ctrl_complete hop8 hop hP false
    · rw [ctrlState, if_pos (by omega : (1:Nat) ≤ 1)]
      have hd : (wireFrame op P).drop 1 = P.length :: P := by simp [wireFrame]
      have ht : (wireFrame op P).take 1 = [128 + op] := by simp [wireFrame]
      rw [hcfull, hd, ht]
      simpa [ctrlFrame, initState] using
        processB_header_ctrl_complete hop8 hop hP false
  · have h2 : 2 ≤ p := by omega
    rw [ctrlState, if_neg h1]
    rw [hcfull, wireFrame_drop h2]
    have hacc : (P.take (p - 2)).length < P.length := by
      simp only [List.length_take]
      omega
    have heq : (P.take (p - 2)).length + (P.drop (p - 2)).length = P.length := by
      simp only [List.length_take, List.length_drop]
      omega
    have hfin := processB_ctrl_complete hacc heq op false
    rw [List.take_append_drop] at hfin
    simpa [ctrlFrame, initState] using hfin

theorem readFrames_ctrl_run {op : Nat} (hop8 : 8 ≤ op) (hop : op < 16)
    {P : List Nat} (hP : P.length ≤ 125) (m : IoMode) :
    ∀ (cs : List (List Nat)) (p : Nat) (susp : Bool),
      p < 2 + P.length → cs ≠ [] → (∀ c ∈ cs, c ≠ []) →
      cs.flatten = (wireFrame op P).drop p →
      readFramesOp (cs.map (ReadEv.data m)) (ctrlState op P p) susp
        = ⟨susp || (m == .async), .ok, [ctrlFrame op P], initState, []⟩ := by
  intro cs
  induction cs with
  | nil =>
    intro p susp hp hne _ _
    exact absurd rfl hne
  | cons c cs ih =>
    intro p susp hp _ hcne hflat
    have hc : c ≠ [] := hcne c (List.mem_cons_self c cs)
    have hentry := @processB_ctrlState op P p hp
    have hflat' : c ++ cs.flatten = (wireFrame op P).drop p := by
      simpa using hflat
    have hlen : p + (c.length + cs.flatten.length) = 2 + P.length := by
      have hl := congrArg List.length hflat'
      simp only [List.length_append, List.length_drop, wireFrame_length] at hl
      omega
    have hcval : c = ((wireFrame op P).drop p).take c.length := by
      rw [← hflat', List.take_left]
    have hrest : cs.flatten = (wireFrame op P).drop (p + c.length) := by
      have hdl : cs.flatten = ((wireFrame op P).drop p).drop c.length := by
        rw [← hflat', List.drop_left]
      rw [hdl, List.drop_drop]
    rw [List.map_cons, readFramesOp_quiet_data hentry hc]
    cases cs with
    | nil =>
      have hcfull : c = (wireFrame op P).drop p := by simpa using hflat'
      rw [List.map_nil,
        readFramesOp_surface (processB_ctrl_feed_last hop8 hop hP hp hcfull)]
    | cons c2 cs2 =>
      have hf2 : (c2 :: cs2).flatten ≠ [] := by
        have hc2 : c2 ≠ [] := hcne c2 (by simp)
        simp only [List.flatten_cons, ne_eq, List.append_eq_nil]
        intro h
        exact hc2 h.1
      have hq : p + c.length < 2 + P.length := by
        have := List.length_pos.mpr hf2
        omega
      rw [readFramesOp_align (processB_ctrl_feed hop8 hop hP hc hq hcval)
        (processB_ctrlState hq)]
      rw [ih (p + c.length) (susp || (m == .async)) hq (by simp)
        (fun x hx => hcne x (List.mem_cons_of_mem c hx)) hrest,
        Bool.or_assoc, Bool.or_self]

theorem take_cons_cons {a b : Nat} {r : List Nat} {q : Nat} (h : 2 ≤ q) :
    (a :: b :: r).take q = a :: b :: r.take (q - 2) := by
  obtain ⟨k, rfl⟩ : ∃ k, q = k + 2 := ⟨q - 2, by omega⟩
  simp

theorem processB_overlong {op : Nat} (hop8 : 8 ≤ op) (hop : op < 16)
    (t : List Nat) (im : Bool) :
    processB ⟨(128 + op) :: 126 :: t, im, none, none⟩ = .error () := by
  simp [processB, processBuffer, parseHeader_overlong hop8 hop]

theorem readFrames_overlong_run {op : Nat} (hop8 : 8 ≤ op) (hop : op < 16)
    (rest : List Nat) (m : IoMode) :
    ∀ (cs : List (List Nat)) (p : Nat) (susp : Bool),
      p ≤ 1 → cs ≠ [] → (∀ c ∈ cs, c ≠ []) →
      cs.flatten = ((128 + op) :: 126 :: rest).drop p →
      (readFramesOp (cs.map (ReadEv.data m))
          ⟨((128 + op) :: 126 :: rest).take p, false, none, none⟩ susp).result
        = .wsProtocolError ∧
      (readFramesOp (cs.map (ReadEv.data m))
          ⟨((128 + op) :: 126 :: rest).take p, false, none, none⟩ susp).frames = [] := by
  intro cs
  induction cs with
  | nil =>
    intro p susp _ hne _ _
    exact absurd rfl hne
  | cons c cs ih =>
    intro p susp hp _ hcne hflat
    have hc : c ≠ [] := hcne c (List.mem_cons_self c cs)
    have hcpos : 0 < c.length := List.length_pos.mpr hc
    have hflat' : c ++ cs.flatten = ((128 + op) :: 126 :: rest).drop p := by
      simpa using hflat
    have hcval : c = (((128 + op) :: 126 :: rest).drop p).take c.length := by
      rw [← hflat', List.take_left]
    have hentry : processB ⟨((128 + op) :: 126 :: rest).take p, false, none, none⟩
        = .ok ([], ⟨((128 + op) :: 126 :: rest).take p, false, none, none⟩) := by
      interval_cases p
      · simpa using processB_nil false
      · simpa using processB_one (128 + op) false
    rw [List.map_cons, readFramesOp_quiet_data hentry hc]
    by_cases hq2 : 2 ≤ p + c.length
    · have hsplit : ((128 + op) :: 126 :: rest).take p ++ c
          = (128 + op) :: 126 :: rest.take (p + c.length - 2) := by
        conv_lhs => rw [hcval]
        rw [← List.take_add, take_cons_cons hq2]
      rw [hsplit,
        readFramesOp_error (processB_overlong hop8 hop _ false)]
      exact ⟨rfl, rfl⟩
    · have hp0 : p = 0 := by omega
      have hcl : c.length = 1 := by omega
      have hc1 : c = [128 + op] := by
        conv_lhs => rw [hcval]
        rw [hp0, hcl]
        simp
      subst hp0
      have hrest2 : cs.flatten = ((128 + op) :: 126 :: rest).drop 1 := by
        have hdl : cs.flatten = (((128 + op) :: 126 :: rest).drop 0).drop c.length := by
          rw [← hflat', List.drop_left]
        rw [hdl, hcl]
        simp
      have hne2 : cs ≠ [] := by
        intro hnil
        rw [hnil] at hrest2
        simp at hrest2
      have hstate : (⟨((128 + op) :: 126 :: rest).take 0, false, none, none⟩ : ReadState).buffer ++ c
          = ((128 + op) :: 126 :: rest).take 1 := by
        simp [hc1]
      rw [List.take_zero] at hstate ⊢
      rw [hstate]
      exact ih 1 (susp || (m == .async)) (by omega) hne2
        (fun x hx => hcne x (List.mem_cons_of_mem c hx)) hrest2

theorem processB_data_feed_silent {op : Nat} (hop : op < 8) {D : List Nat}
    (hL : D.length ≤ 125) {p : Nat} {c : List Nat} (hc : c ≠ [])
    (hq2 : p + c.length ≤ 2) (hq : p + c.length < 2 + D.length)
    (hcval : c = ((wireFrame op D).drop p).take c.length) :
    processB { dataState op D p with buffer := (dataState op D p).buffer ++ c }
      = .ok ([], dataState op D (p + c.length)) := by
  have hcpos : 0 < c.length := List.length_pos.mpr hc
  have h1 : p ≤ 1 := by omega
  have hsplit : (wireFrame op D).take p ++ c = (wireFrame op D).take (p + c.length) := by
    conv_lhs => rw [hcval]
    rw [← List.take_add]
  by_cases hq1 : p + c.length ≤ 1
  · have hql : p + c.length = 1 := by omega
    rw [dataState, if_pos h1, dataState, if_pos hq1]
    simp only [hsplit, hql]
    have ht1 : (wireFrame op D).take 1 = [128 + op] := by simp [wireFrame]
    rw [ht1]
    simpa [ht1] using processB_one (128 + op) false
  · have hql : p + c.length = 2 := by omega
    have hD0 : 0 < D.length := by omega
    rw [dataState, if_pos h1, dataState, if_neg hq1]
    simp only [hsplit, hql]
    have ht2 : (wireFrame op D).take 2 = [128 + op, D.length] := by simp [wireFrame]
    rw [ht2]
    have := processB_header_data_wait hop hL hD0 false
    simpa using this

theorem processB_data_feed_frag {op : Nat} (hop : op < 8) {D : List Nat}
    (hL : D.length ≤ 125) {p : Nat} {c : List Nat} (hc : c ≠ [])
    (hq2 : 2 < p + c.length) (hq : p + c.length < 2 + D.length)
    (hp : p < 2 + D.length)
    (hcval : c = ((wireFrame op D).drop p).take c.length) :
    processB { dataState op D p with buffer := (dataState op D p).buffer ++ c }
      = .ok ([fragAt op D p (p + c.length)], dataState op D (p + c.length)) := by
  have hcpos : 0 < c.length := List.length_pos.mpr hc
  have hfin : ¬ (p + c.length = 2 + D.length) := by omega
  have hqn1 : ¬ (p + c.length ≤ 1) := by omega
  by_cases h1 : p ≤ 1
  · -- the header completes within this chunk and payload bytes follow
    have hsplit : (wireFrame op D).take p ++ c = (wireFrame op D).take (p + c.length) := by
      conv_lhs => rw [hcval]
      rw [← List.take_add]
    have htk : (wireFrame op D).take (p + c.length)
        = (128 + op) :: D.length :: D.take (p + c.length - 2) :=
      wireFrame_take (by omega)
    have htne : D.take (p + c.length - 2) ≠ [] := by
      have : (D.take (p + c.length - 2)).length = p + c.length - 2 := by
        simp only [List.length_take]
        omega
      intro hnil
      rw [hnil] at this
      simp at this
      omega
    have htlt : (D.take (p + c.length - 2)).length < D.length := by
      simp only [List.length_take]
      omega
    have htl : (D.take (p + c.length - 2)).length = p + c.length - 2 := by
      simp only [List.length_take]
      omega
    rw [dataState, if_pos h1, dataState, if_neg hqn1]
    simp only [hsplit, htk]
    rw [processB_header_data_part hop hL htne htlt false]
    have hmax : max p 2 = 2 := by omega
    have hp2 : p - 2 = 0 := by omega
    simp only [fragAt, hmax, hp2, List.drop_zero, htl,
      decide_eq_false hfin, if_neg (by omega : ¬ 2 < p),
      if_neg (show ¬ (2:Nat) < 2 by omega), decide_eq_true (by omega : 2 < p + c.length)]
    rfl
  · -- resuming an in-progress data frame: every byte of the chunk is payload
    have h2 : 2 ≤ p := by omega
    have hcval2 : c = (D.drop (p - 2)).take c.length := by
      conv_lhs => rw [hcval]
      rw [wireFrame_drop h2]
    have hclen : c.length < D.length - (p - 2) := by
      have : (((wireFrame op D).drop p).take c.length).length ≤ ((wireFrame op D).drop p).length := by
        simp [List.length_take]
      omega
    rw [dataState, if_neg h1, dataState, if_neg hqn1]
    simp only [List.nil_append]
    rw [processB_data_part hc hclen (decide (2 < p)) true op]
    have hrem : D.length - (p - 2) - c.length = D.length - (p + c.length - 2) := by omega
    have hmax : max p 2 = p := by omega
    have harith : p + c.length - p = c.length := by omega
    by_cases h3 : 2 < p
    · simp only [fragAt, hmax, decide_eq_false hfin, if_pos h3, decide_eq_true h3,
        hrem, harith]
      rw [← hcval2]
      simp
      omega
    · simp only [fragAt, hmax, decide_eq_false hfin, if_neg h3, decide_eq_false h3,
        hrem, harith]
      rw [← hcval2]
      simp
      omega

theorem processB_data_feed_last {op : Nat} (hop : op < 8) {D : List Nat}
    (hL : D.length ≤ 125) (hD : D ≠ []) {p : Nat} {c : List Nat}
    (hp : p < 2 + D.length) (hcfull : c = (wireFrame op D).drop p) :
    processB { dataState op D p with buffer := (dataState op D p).buffer ++ c }
      = .ok ([fragAt op D p (2 + D.length)], initState) := by
  have hDpos : 0 < D.length := List.length_pos.mpr hD
  by_cases h1 : p ≤ 1
  · have hsplit : (wireFrame op D).take p ++ c = wireFrame op D := by
      rw [hcfull, List.take_append_drop]
    have hmax : max p 2 = 2 := by omega
    have hp2 : p - 2 = 0 := by omega
    rw [dataState, if_pos h1]
    simp only [hsplit]
    simp only [wireFrame]
    rw [processB_header_data_complete hop hL false]
    simp only [fragAt, hmax, hp2, List.drop_zero,
      decide_eq_true (rfl : 2 + D.length = 2 + D.length),
      if_neg (by omega : ¬ 2 < p), initState]
    simp
  · have h2 : 2 ≤ p := by omega
    have hcval2 : c = D.drop (p - 2) := by rw [hcfull, wireFrame_drop h2]
    have hclen : c.length = D.length - (p - 2) := by
      rw [hcval2]
      simp
    have hcne : c ≠ [] := by
      rw [hcval2]
      intro hnil
      have := congrArg List.length hnil
      simp at this
      omega
    rw [dataState, if_neg h1]
    simp only [List.nil_append]
    rw [← hclen, processB_data_complete hcne (decide (2 < p)) true op]
    have hmax : max p 2 = p := by omega
    by_cases h3 : 2 < p
    · simp only [fragAt, hmax, decide_eq_true h3, if_pos h3,
        decide_eq_true (rfl : 2 + D.length = 2 + D.length), initState, hclen, hcval2]
      simp
      omega
    · have hp2 : p = 2 := by omega
      subst hp2
      simp only [fragAt, hmax, decide_eq_false h3, if_neg h3,
        decide_eq_true (rfl : 2 + D.length = 2 + D.length), initState, hclen, hcval2]
      simp

theorem collectFrames_susp_shift (n1 : Nat) (evs : List ReadEv) (s : ReadState)
    (a : Bool) :
    (if (readFramesOp evs s a).result = .ok
     then (readFramesOp evs s a).frames
          ++ collectFrames n1 (readFramesOp evs s a).state (readFramesOp evs s a).rest
     else [])
      = collectFrames (n1 + 1) s evs := by
  obtain ⟨h1, h2, h3, h4⟩ := readFramesOp_susp_irrel evs s a false
  simp only [collectFrames]
  rw [h1, h2, h3, h4]

theorem fragProp_le_two {op : Nat} {D : List Nat} {p q : Nat} (hp : p ≤ 2)
    (hq : q ≤ 2) {fs : List WebSocketFrame} (h : fragProp op D q fs) :
    fragProp op D p fs := by
  unfold fragProp at h ⊢
  rw [if_neg (by omega : ¬ 2 < p), (by omega : p - 2 = 0)]
  rw [if_neg (by omega : ¬ 2 < q), (by omega : q - 2 = 0)] at h
  exact h

theorem fragProp_cons {op : Nat} {D : List Nat} {p q : Nat} (hpq : p ≤ q)
    (hq2 : 2 < q) (hqe : q < 2 + D.length) {fs : List WebSocketFrame}
    (h : fragProp op D q fs) : fragProp op D p (fragAt op D p q :: fs) := by
  obtain ⟨hne, hhead, htail, hdrop, hlast, hflat⟩ := h
  obtain ⟨f0, fs0, rfl⟩ := List.exists_cons_of_ne_nil hne
  have hf0 : f0.header.opcode = kOpCodeContinuation := by
    simp only [List.head?_cons, Option.map_some'] at hhead
    rw [if_pos hq2] at hhead
    exact Option.some.inj hhead
  refine ⟨by simp, by simp [fragAt], ?_, ?_, ?_, ?_⟩
  · intro f hf
    rcases List.mem_cons.mp hf with h | h
    · rw [h]
      exact hf0
    · exact htail f h
  · intro f hf
    rw [List.dropLast_cons₂] at hf
    rcases List.mem_cons.mp hf with h | h
    · rw [h]
      simp only [fragAt]
      simp [decide_eq_false (by omega : ¬ q = 2 + D.length)]
    · exact hdrop f h
  · rw [List.getLast?_cons_cons]
    exact hlast
  · simp only [List.map_cons, List.flatten_cons]
    simp only [List.map_cons, List.flatten_cons] at hflat
    rw [hflat]
    simp only [fragAt]
    by_cases h3 : 2 < p
    · have hmax : max p 2 = p := by omega
      rw [hmax]
      have hdd : D.drop (q - 2) = (D.drop (p - 2)).drop (q - p) := by
        rw [List.drop_drop]
        congr 1
        omega
      rw [hdd, List.take_append_drop]
    · have hmax : max p 2 = 2 := by omega
      have hp2 : p - 2 = 0 := by omega
      rw [hmax, hp2, List.drop_zero, List.take_append_drop]

theorem processB_initState : processB initState = .ok ([], initState) := rfl

theorem collectFrames_nil_ev (n : Nat) : collectFrames n initState [] = [] := by
  cases n with
  | zero => rfl
  | succ n =>
    simp only [collectFrames, readFramesOp_quiet_nil processB_initState]
    simp

theorem fragProp_single {op : Nat} {D : List Nat} {p : Nat} (hp : p < 2 + D.length) :
    fragProp op D p [fragAt op D p (2 + D.length)] := by
  refine ⟨by simp, by simp [fragAt], by simp, by simp, ?_, ?_⟩
  · simp [fragAt]
  · simp only [List.map_cons, List.map_nil, List.flatten_cons, List.flatten_nil,
      List.append_nil, fragAt]
    by_cases h3 : 2 < p
    · have hmax : max p 2 = p := by omega
      rw [hmax]
      have hlen : 2 + D.length - p = (D.drop (p - 2)).length := by
        simp only [List.length_drop]
        omega
      rw [hlen, List.take_length]
    · have hmax : max p 2 = 2 := by omega
      have hp2 : p - 2 = 0 := by omega
      rw [hmax, hp2, List.drop_zero, (by omega : 2 + D.length - 2 = D.length),
        List.take_length]

theorem readFrames_data_run {op : Nat} (hop : op < 8) {D : List Nat}
    (hL : D.length ≤ 125) (hD : D ≠ []) (m : IoMode) :
    ∀ (cs : List (List Nat)) (p n : Nat),
      p < 2 + D.length → cs ≠ [] → (∀ c ∈ cs, c ≠ []) →
      cs.flatten = (wireFrame op D).drop p → cs.length < n →
      fragProp op D p
        (collectFrames n (dataState op D p) (cs.map (ReadEv.data m))) := by
  intro cs
  induction cs with
  | nil =>
    intro p n _ hne _ _ _
    exact absurd rfl hne
  | cons c cs ih =>
    intro p n hp _ hcne hflat hn
    have hc : c ≠ [] := hcne c (List.mem_cons_self c cs)
    have hcpos : 0 < c.length := List.length_pos.mpr hc
    have hflat' : c ++ cs.flatten = (wireFrame op D).drop p := by simpa using hflat
    have hlen : p + (c.length + cs.flatten.length) = 2 + D.length := by
      have hl := congrArg List.length hflat'
      simp only [List.length_append, List.length_drop, wireFrame_length] at hl
      omega
    have hcval : c = ((wireFrame op D).drop p).take c.length := by
      rw [← hflat', List.take_left]
    have hrest : cs.flatten = (wireFrame op D).drop (p + c.length) := by
      have hdl : cs.flatten = ((wireFrame op D).drop p).drop c.length := by
        rw [← hflat', List.drop_left]
      rw [hdl, List.drop_drop]
    obtain ⟨n1, rfl⟩ : ∃ n1, n = n1 + 1 := ⟨n - 1, by omega⟩
    simp only [collectFrames]
    rw [List.map_cons, readFramesOp_quiet_data (processB_dataState hp) hc]
    cases cs with
    | nil =>
      have hql : p + c.length = 2 + D.length := by
        simp only [List.flatten_nil, List.length_nil] at hlen
        omega
      have hcfull : c = (wireFrame op D).drop p := by simpa using hflat'
      rw [readFramesOp_surface (processB_data_feed_last hop hL hD hp hcfull),
        List.map_nil]
      simp only [if_pos rfl]
      rw [collectFrames_nil_ev, List.append_nil]
      exact fragProp_single hp
    | cons c2 cs2 =>
      have hf2 : (c2 :: cs2).flatten ≠ [] := by
        have hc2 : c2 ≠ [] := hcne c2 (by simp)
        simp only [List.flatten_cons, ne_eq, List.append_eq_nil]
        intro h
        exact hc2 h.1
      have hq : p + c.length < 2 + D.length := by
        have := List.length_pos.mpr hf2
        omega
      by_cases hq2 : 2 < p + c.length
      · rw [readFramesOp_surface
          (processB_data_feed_frag hop hL hc hq2 hq hp hcval)]
        simp only [if_pos rfl]
        exact fragProp_cons (by omega) hq2 hq
          (ih (p + c.length) n1 hq (by simp)
            (fun x hx => hcne x (List.mem_cons_of_mem c hx)) hrest (by
              simp only [List.length_cons] at hn ⊢
              omega))
      · rw [readFramesOp_align
          (processB_data_feed_silent hop hL hc (by omega) hq hcval)
          (processB_dataState hq)]
        rw [collectFrames_susp_shift n1]
        exact fragProp_le_two (by omega) (by omega)
          (ih (p + c.length) (n1 + 1) hq (by simp)
            (fun x hx => hcne x (List.mem_cons_of_mem c hx)) hrest (by
              simp only [List.length_cons] at hn ⊢
              omega))

theorem emitData_payload {s : ReadState} {c : CurrentFrame} {f : WebSocketFrame}
    {s1 : ReadState} (h : emitData s c = (some f, s1)) :
    f.header.payload_length = f.data.length := by
  unfold emitData at h
  split at h
  · rename_i hle
    injection h with h1 _
    injection h1 with h1
    subst h1
    simp [List.length_take]
    omega
  · split at h
    · exact absurd h (by simp)
    · injection h with h1 _
      injection h1 with h1
      subst h1
      simp

theorem pcWf_none {s : ReadState} (h : s.pendingControl = none) : pcWf s := by
  intro pc hpc
  rw [h] at hpc
  exact absurd hpc (by simp)

theorem emitData_pc (s : ReadState) (c : CurrentFrame) :
    (emitData s c).2.pendingControl = s.pendingControl := by
  unfold emitData
  split
  · rfl
  · split
    · rfl
    · rfl

theorem processBuffer_payload_length :
    ∀ (fuel : Nat) (s : ReadState) (fs : List WebSocketFrame) (s1 : ReadState),
      pcWf s → processBuffer fuel s = .ok (fs, s1) →
      (∀ f ∈ fs, f.header.payload_length = f.data.length) ∧ pcWf s1 := by
  intro fuel
  induction fuel with
  | zero =>
    intro s fs s1 hwf h
    rw [processBuffer] at h
    injection h with h
    injection h with h1 h2
    subst h1
    subst h2
    exact ⟨by simp, hwf⟩
  | succ fuel ih =>
    intro s fs s1 hwf h
    rw [processBuffer] at h
    split at h
    · -- pending control branch
      rename_i pc hpc
      have hacc : pc.acc.length < pc.len := hwf pc hpc
      split at h
      · rename_i hle
        split at h
        · exact absurd h (by simp)
        · rename_i fs2 s2 hrec
          injection h with h
          injection h with h1 h2
          subst h1
          subst h2
          obtain ⟨hfs, hwf2⟩ := ih _ _ _ (pcWf_none rfl) hrec
          refine ⟨?_, hwf2⟩
          intro f hf
          rcases List.mem_cons.mp hf with hfh | hft
          · subst hfh
            simp [List.length_take]
            omega
          · exact hfs f hft
      · injection h with h
        injection h with h1 h2
        subst h1
        subst h2
        refine ⟨by simp, ?_⟩
        intro x hx
        simp at hx
        rename_i hgt
        subst hx
        simp
        omega
    · -- no pending control: current frame or fresh header
      rename_i hpcn
      split at h
      · -- in-progress data frame
        rename_i c hcur
        split at h
        · rename_i f2 s2 hemit
          have hs2pc : s2.pendingControl = none := by
            have hgen := emitData_pc { s with current := none } c
            rw [hemit] at hgen
            simpa [hpcn] using hgen
          split at h
          · exact absurd h (by simp)
          · rename_i fs2 s3 hrec
            injection h with h
            injection h with h1 h2
            subst h1
            subst h2
            obtain ⟨hfs, hwf2⟩ := ih _ _ _ (pcWf_none hs2pc) hrec
            refine ⟨?_, hwf2⟩
            intro f hf
            rcases List.mem_cons.mp hf with hfh | hft
            · subst hfh
              exact emitData_payload hemit
            · exact hfs f hft
        · rename_i hemit
          injection h with h
          injection h with h1 h2
          subst h1
          subst h2
          refine ⟨by simp, ?_⟩
          apply pcWf_none
          have hgen := emitData_pc { s with current := none } c
          rw [hemit] at hgen
          simpa [hpcn] using hgen
      · -- fresh header parse
        split at h
        · injection h with h
          injection h with h1 h2
          subst h1
          subst h2
          exact ⟨by simp, hwf⟩
        · exact absurd h (by simp)
        · rename_i hd rest hparse
          split at h
          · -- control opcode
            split at h
            · rename_i hle
              split at h
              · exact absurd h (by simp)
              · rename_i fs2 s2 hrec
                injection h with h
                injection h with h1 h2
                subst h1
                subst h2
                obtain ⟨hfs, hwf2⟩ := ih _ _ _ (by exact pcWf_none hpcn) hrec
                refine ⟨?_, hwf2⟩
                intro f hf
                rcases List.mem_cons.mp hf with hfh | hft
                · subst hfh
                  simp [List.length_take]
                  omega
                · exact hfs f hft
            · rename_i hgt
              injection h with h
              injection h with h1 h2
              subst h1
              subst h2
              refine ⟨by simp, ?_⟩
              intro x hx
              simp at hx
              subst hx
              simp
              omega
          · -- data opcode
            split at h
            · rename_i f2 s2 hemit
              have hs2pc : s2.pendingControl = none := by
                have hgen := emitData_pc { s with buffer := rest, current := none }
                  ⟨hd.opcode, hd.final, hd.payload_length⟩
                rw [hemit] at hgen
                simpa [hpcn] using hgen
              split at h
              · exact absurd h (by simp)
              · rename_i fs2 s3 hrec
                injection h with h
                injection h with h1 h2
                subst h1
                subst h2
                obtain ⟨hfs, hwf2⟩ := ih _ _ _ (pcWf_none hs2pc) hrec
                refine ⟨?_, hwf2⟩
                intro f hf
                rcases List.mem_cons.mp hf with hfh | hft
                · subst hfh
                  exact emitData_payload hemit
                · exact hfs f hft
            · rename_i hemit
              injection h with h
              injection h with h1 h2
              subst h1
              subst h2
              refine ⟨by simp, ?_⟩
              apply pcWf_none
              have hgen := emitData_pc { s with buffer := rest, current := none }
                ⟨hd.opcode, hd.final, hd.payload_length⟩
              rw [hemit] at hgen
              simpa [hpcn] using hgen

theorem readFramesOp_payload_length :
    ∀ (evs : List ReadEv) (s : ReadState) (susp : Bool), pcWf s →
      ∀ f ∈ (readFramesOp evs s susp).frames,
        f.header.payload_length = f.data.length := by
  intro evs
  induction evs with
  | nil =>
    intro s susp hwf f hf
    cases h : processB s with
    | error e =>
      cases e
      rw [readFramesOp_error h] at hf
      simp at hf
    | ok p =>
      obtain ⟨fs, s1⟩ := p
      cases fs with
      | nil =>
        rw [readFramesOp_quiet_nil h] at hf
        simp at hf
      | cons f0 fs0 =>
        rw [readFramesOp_surface h] at hf
        exact (processBuffer_payload_length _ _ _ _ hwf h).1 f hf
  | cons ev evs ih =>
    intro s susp hwf f hf
    cases h : processB s with
    | error e =>
      cases e
      rw [readFramesOp_error h] at hf
      simp at hf
    | ok p =>
      obtain ⟨fs, s1⟩ := p
      cases fs with
      | cons f0 fs0 =>
        rw [readFramesOp_surface h] at hf
        exact (processBuffer_payload_length _ _ _ _ hwf h).1 f hf
      | nil =>
        have hwf1 : pcWf s1 := (processBuffer_payload_length _ _ _ _ hwf h).2
        cases ev with
        | data m bytes =>
          cases bytes with
          | nil =>
            rw [readFramesOp_quiet_close h] at hf
            simp at hf
          | cons x xs =>
            rw [readFramesOp_quiet_data h (by simp)] at hf
            exact ih _ _ (by exact hwf1) f hf
        | fail m code =>
          rw [readFramesOp_quiet_fail h] at hf
          simp at hf
        | hang =>
          rw [readFramesOp_quiet_hang h] at hf
          simp at hf

theorem readFramesOp_ok_frames :
    ∀ (evs : List ReadEv) (s : ReadState) (susp : Bool),
      (readFramesOp evs s susp).result = .ok →
      (readFramesOp evs s susp).frames ≠ [] := by
  intro evs
  induction evs with
  | nil =>
    intro s susp h
    cases hp : processB s with
    | error e =>
      cases e
      rw [readFramesOp_error hp] at h
      simp at h
    | ok p =>
      obtain ⟨fs, s1⟩ := p
      cases fs with
      | nil =>
        rw [readFramesOp_quiet_nil hp] at h
        simp at h
      | cons f0 fs0 =>
        rw [readFramesOp_surface hp]
        simp
  | cons ev evs ih =>
    intro s susp h
    cases hp : processB s with
    | error e =>
      cases e
      rw [readFramesOp_error hp] at h
      simp at h
    | ok p =>
      obtain ⟨fs, s1⟩ := p
      cases fs with
      | cons f0 fs0 =>
        rw [readFramesOp_surface hp]
        simp
      | nil =>
        cases ev with
        | data m bytes =>
          cases bytes with
          | nil =>
            rw [readFramesOp_quiet_close hp] at h
            simp at h
          | cons x xs =>
            rw [readFramesOp_quiet_data hp (by simp)] at h ⊢
            exact ih _ _ h
        | fail m code =>
          rw [readFramesOp_quiet_fail hp] at h
          split at h <;> simp at h
        | hang =>
          rw [readFramesOp_quiet_hang hp] at h
          simp at h

theorem writeLoop_run :
    ∀ (parts : List (IoMode × Nat)) (total cursor : Nat) (susp : Bool),
      (∀ x ∈ parts, 1 ≤ x.2) →
      cursor + (parts.map (fun x => x.2)).sum = total →
      writeLoop (parts.map (fun x => WriteEv.accept x.1 x.2)) total cursor susp
        = ⟨susp || parts.any (fun x => x.1 == .async), .ok, total, []⟩ := by
  intro parts
  induction parts with
  | nil =>
    intro total cursor susp _ hsum
    simp only [List.map_nil, List.sum_nil, Nat.add_zero] at hsum
    subst hsum
    simp only [List.map_nil, writeLoop, if_pos (Nat.le_refl cursor)]
    simp
  | cons x ps ih =>
    intro total cursor susp hpos hsum
    simp only [List.map_cons, List.sum_cons] at hsum
    have hx : 1 ≤ x.2 := hpos x (List.mem_cons_self x ps)
    rw [List.map_cons]
    simp only [writeLoop]
    rw [if_neg (by omega : ¬ total ≤ cursor)]
    rw [ih total (cursor + x.2) (susp || (x.1 == .async))
      (fun y hy => hpos y (List.mem_cons_of_mem x hy)) (by omega)]
    simp [Bool.or_assoc]

theorem writeLoop_prefix :
    ∀ (parts : List (IoMode × Nat)) (total cursor : Nat) (susp : Bool),
      cursor + (parts.map (fun x => x.2)).sum < total →
      (writeLoop (parts.map (fun x => WriteEv.accept x.1 x.2)) total cursor susp).result
        = .ioPending := by
  intro parts
  induction parts with
  | nil =>
    intro total cursor susp hsum
    simp only [List.map_nil, List.sum_nil, Nat.add_zero] at hsum
    simp only [List.map_nil, writeLoop]
    rw [if_neg (by omega : ¬ total ≤ cursor)]
  | cons x ps ih =>
    intro total cursor susp hsum
    simp only [List.map_cons, List.sum_cons] at hsum
    rw [List.map_cons]
    simp only [writeLoop]
    rw [if_neg (by omega : ¬ total ≤ cursor)]
    exact ih total (cursor + x.2) (susp || (x.1 == .async)) (by omega)

/-! ## Claim theorems -/

/-- Claim C1: for every fragmented data message read via ReadFrames — a single
wire data frame `wireFrame op D` (data opcode `op`, declared total length
`D.length`) delivered across an arbitrary partition `cs` of its wire bytes
into nonempty transport read chunks — the first surfaced Frame carries the
original data opcode `op`, every subsequently surfaced fragment carries
opcode Continuation, only the fragment whose cumulative payload reaches the
declared total length is final (all earlier fragments have `final = false`),
and the fragment payloads concatenate back to `D`. -/
theorem C1_fragmented_data_message (op : Nat) (hop1 : 1 ≤ op) (hop : op < 8)
    (D : List Nat) (hL : D.length ≤ 125) (hD : D ≠ [])
    (cs : List (List Nat)) (hcs : cs ≠ []) (hne : ∀ c ∈ cs, c ≠ [])
    (hflat : cs.flatten = wireFrame op D) (m : IoMode) :
    let fs := collectFrames (cs.length + 1) initState (cs.map (ReadEv.data m))
    fs ≠ [] ∧
    fs.head?.map (fun f => f.header.opcode) = some op ∧
    (∀ f ∈ fs.tail, f.header.opcode = kOpCodeContinuation) ∧
    (∀ f ∈ fs.dropLast, f.header.final = false) ∧
    fs.getLast?.map (fun f => f.header.final) = some true ∧
    (fs.map (fun f => f.data)).flatten = D := by
  intro fs
  have hrun := readFrames_data_run hop hL hD m cs 0 (cs.length + 1) (by omega)
    hcs hne (by simpa using hflat) (by omega)
  have hinit : dataState op D 0 = initState := by
    simp [dataState, initState]
  rw [hinit] at hrun
  obtain ⟨h1, h2, h3, h4, h5, h6⟩ := hrun
  rw [if_neg (by omega : ¬ 2 < 0)] at h2
  exact ⟨h1, h2, h3, h4, h5, by simpa using h6⟩

/-- Witness for C1: the sample Text frame "\x81\x06Sample" split into chunks
of 3, 3 and 2 bytes (the `ContinuationOpCodeUsed` test split). -/
theorem C1_witness :
    (1 ≤ 1 ∧ 1 < 8 ∧ ([83, 97, 109, 112, 108, 101] : List Nat).length ≤ 125 ∧
     ([83, 97, 109, 112, 108, 101] : List Nat) ≠ [] ∧
     ([[129, 6, 83], [97, 109, 112], [108, 101]] : List (List Nat)) ≠ [] ∧
     (∀ c ∈ ([[129, 6, 83], [97, 109, 112], [108, 101]] : List (List Nat)), c ≠ []) ∧
     ([[129, 6, 83], [97, 109, 112], [108, 101]] : List (List Nat)).flatten
       = wireFrame 1 [83, 97, 109, 112, 108, 101]) ∧
    (let fs := collectFrames ([[129, 6, 83], [97, 109, 112], [108, 101]].length + 1)
        initState ([[129, 6, 83], [97, 109, 112], [108, 101]].map (ReadEv.data .async))
     fs ≠ [] ∧
     fs.head?.map (fun f => f.header.opcode) = some 1 ∧
     (∀ f ∈ fs.tail, f.header.opcode = kOpCodeContinuation) ∧
     (∀ f ∈ fs.dropLast, f.header.final = false) ∧
     fs.getLast?.map (fun f => f.header.final) = some true ∧
     (fs.map (fun f => f.data)).flatten = [83, 97, 109, 112, 108, 101]) :=
  ⟨⟨by decide, by decide, by decide, by decide, by decide, by decide, by decide⟩,
   C1_fragmented_data_message 1 (by decide) (by decide) [83, 97, 109, 112, 108, 101]
     (by decide) (by decide) [[129, 6, 83], [97, 109, 112], [108, 101]]
     (by decide) (by decide) (by decide) .async⟩

/-- Claim C2: control frame atomicity. For any control frame `wireFrame op P`
(control opcode `op`, payload `P` of at most 125 bytes), any carry-over
prefix of `k` wire bytes supplied at construction, and any partition of the
remaining wire bytes into nonempty transport read chunks, one ReadFrames
operation surfaces exactly one Frame — complete, with its full payload and
`final = true` — and its completion (Ok, or the async callback when any
chunk is asynchronous) consumes every chunk, i.e. is not delivered until the
control frame is fully assembled. -/
theorem C2_control_atomicity (op : Nat) (hop8 : 8 ≤ op) (hop : op < 16)
    (P : List Nat) (hP : P.length ≤ 125) (k : Nat) (hk : k < 2 + P.length)
    (cs : List (List Nat)) (hcs : cs ≠ []) (hne : ∀ c ∈ cs, c ≠ [])
    (hflat : cs.flatten = (wireFrame op P).drop k) (m : IoMode) :
    readFramesOp (cs.map (ReadEv.data m)) (mkState ((wireFrame op P).take k)) false
      = ⟨m == .async, .ok, [⟨⟨true, op, false, P.length⟩, P⟩], initState, []⟩ := by
  have hrun := readFrames_ctrl_run hop8 hop hP m cs k false hk hcs hne hflat
  have halign : readFramesOp (cs.map (ReadEv.data m))
      (mkState ((wireFrame op P).take k)) false
      = readFramesOp (cs.map (ReadEv.data m)) (ctrlState op P k) false := by
    by_cases h1 : k ≤ 1
    · have hms : mkState ((wireFrame op P).take k) = ctrlState op P k := by
        rw [ctrlState, if_pos h1, mkState]
      rw [hms]
    · have h2 : 2 ≤ k := by omega
      have hstash : processB (mkState ((wireFrame op P).take k))
          = .ok ([], ctrlState op P k) := by
        rw [mkState, wireFrame_take h2, ctrlState, if_neg h1]
        exact processB_header_ctrl_stash hop8 hop hP
          (by simp only [List.length_take]; omega) false
      exact readFramesOp_align hstash (processB_ctrlState hk) _ _
  rw [halign, hrun]
  simp [ctrlFrame]

/-- Witness for C2: the Close frame of the tests with a 3-byte carry-over
prefix and the remainder delivered in one asynchronous chunk (the
`PartialControlFrameInHttpResponse` test). -/
theorem C2_witness :
    (8 ≤ 8 ∧ 8 < 16 ∧ ([3, 232, 111, 99, 99, 108, 117, 100, 111] : List Nat).length ≤ 125 ∧
     3 < 2 + ([3, 232, 111, 99, 99, 108, 117, 100, 111] : List Nat).length ∧
     ([kCloseFrame.drop 3] : List (List Nat)) ≠ [] ∧
     (∀ c ∈ ([kCloseFrame.drop 3] : List (List Nat)), c ≠ []) ∧
     ([kCloseFrame.drop 3] : List (List Nat)).flatten
       = (wireFrame 8 [3, 232, 111, 99, 99, 108, 117, 100, 111]).drop 3) ∧
    readFramesOp ([kCloseFrame.drop 3].map (ReadEv.data .async))
        (mkState ((wireFrame 8 [3, 232, 111, 99, 99, 108, 117, 100, 111]).take 3)) false
      = ⟨true, .ok,
         [⟨⟨true, 8, false, 9⟩, [3, 232, 111, 99, 99, 108, 117, 100, 111]⟩],
         initState, []⟩ :=
  ⟨⟨by decide, by decide, by decide, by decide, by decide, by decide, by decide⟩,
   C2_control_atomicity 8 (by decide) (by decide)
     [3, 232, 111, 99, 99, 108, 117, 100, 111] (by decide) 3 (by decide)
     [kCloseFrame.drop 3] (by decide) (by decide) (by decide) .async⟩

/-- Claim C3: a control frame declaring payload length 126 (first two wire
bytes `128 + op` and `126`) is rejected by ReadFrames with ProtocolError and
no Frame is surfaced, for every choice of subsequent bytes `rest` (the
length-extension bytes are never examined, so the rejection happens before
any of them is consumed) and for every chunking of the bytes, whether
delivered in one chunk or split across several. -/
theorem C3_overlong_control_rejected (op : Nat) (hop8 : 8 ≤ op) (hop : op < 16)
    (rest : List Nat) (cs : List (List Nat)) (hcs : cs ≠ [])
    (hne : ∀ c ∈ cs, c ≠ [])
    (hflat : cs.flatten = (128 + op) :: 126 :: rest) (m : IoMode) :
    (readFramesOp (cs.map (ReadEv.data m)) initState false).result
        = .wsProtocolError ∧
    (readFramesOp (cs.map (ReadEv.data m)) initState false).frames = [] := by
  have hrun := readFrames_overlong_run hop8 hop rest m cs 0 false (by omega)
    hcs hne (by simpa using hflat)
  simpa [initState] using hrun

/-- Witness for C3: the 126-byte Pong of the tests split into a 16-byte chunk
and the remainder (the `SplitOverlongControlFrame` test). -/
theorem C3_witness :
    (8 ≤ 10 ∧ 10 < 16 ∧
     ([k126BytePong.take 16, k126BytePong.drop 16] : List (List Nat)) ≠ [] ∧
     (∀ c ∈ ([k126BytePong.take 16, k126BytePong.drop 16] : List (List Nat)), c ≠ []) ∧
     ([k126BytePong.take 16, k126BytePong.drop 16] : List (List Nat)).flatten
       = (128 + 10) :: 126 :: ([0, 126] ++ List.replicate 126 90)) ∧
    (readFramesOp ([k126BytePong.take 16, k126BytePong.drop 16].map (ReadEv.data .sync))
        initState false).result = .wsProtocolError ∧
    (readFramesOp ([k126BytePong.take 16, k126BytePong.drop 16].map (ReadEv.data .sync))
        initState false).frames = [] :=
  ⟨⟨by decide, by decide, by decide, by decide, by decide⟩,
   C3_overlong_control_rejected 10 (by decide) (by decide)
     ([0, 126] ++ List.replicate 126 90)
     [k126BytePong.take 16, k126BytePong.drop 16] (by decide) (by decide)
     (by decide) .sync⟩

/-- Claim C4 counterexample: when the bytes 0x81 0x06 "Sample" are delivered
split as [0x81] then ["\x06Sample"] in two transport read chunks that are
both synchronously available, the first ReadFrames call completes with Ok
directly — it does not return Pending — refuting the claim as stated for
this delivery. -/
theorem C4_counterexample :
    (readFramesOp [.data .sync [129], .data .sync [6, 83, 97, 109, 112, 108, 101]]
        initState false).firstPending = false ∧
    (readFramesOp [.data .sync [129], .data .sync [6, 83, 97, 109, 112, 108, 101]]
        initState false).result = .ok := by
  decide

/-- Claim C4 (amended): when 0x81 0x06 "Sample" is delivered split as [0x81]
then ["\x06Sample"] in two transport read chunks, the operation completes
with Ok and delivers the same single Frame as a one-chunk delivery (opcode
Text, final = true, payload_length = 6), and the first ReadFrames call
returns Pending exactly when at least one of the two chunks is delivered
asynchronously (with both chunks synchronously available it returns Ok in
the first call). -/
theorem C4_header_split_same_frame (m1 m2 : IoMode) :
    (readFramesOp [.data m1 [129], .data m2 [6, 83, 97, 109, 112, 108, 101]]
        initState false).result = .ok ∧
    (readFramesOp [.data m1 [129], .data m2 [6, 83, 97, 109, 112, 108, 101]]
        initState false).frames
      = (readFramesOp [.data .sync kSampleFrame] initState false).frames ∧
    (readFramesOp [.data .sync kSampleFrame] initState false).frames
      = [⟨⟨true, kOpCodeText, false, 6⟩, [83, 97, 109, 112, 108, 101]⟩] ∧
    ((readFramesOp [.data m1 [129], .data m2 [6, 83, 97, 109, 112, 108, 101]]
        initState false).firstPending = true ↔ (m1 = .async ∨ m2 = .async)) := by
  cases m1 <;> cases m2 <;> refine ⟨by decide, by decide, by decide, by decide⟩

/-- Claim C5: a zero-length transport read and a transport
`ERR_CONNECTION_CLOSED` signal are treated identically by ReadFrames: from
any quiescent state both yield exactly the same outcome, with result
ConnectionClosed — never ProtocolError, and never Pending as the delivered
result. -/
theorem C5_close_semantics (s s1 : ReadState) (susp : Bool) (m : IoMode)
    (evs : List ReadEv) (h : processB s = .ok ([], s1)) :
    readFramesOp (.data m [] :: evs) s susp
        = ⟨susp || (m == .async), .connectionClosed, [], s1, evs⟩ ∧
    readFramesOp (.fail m ERR_CONNECTION_CLOSED :: evs) s susp
        = ⟨susp || (m == .async), .connectionClosed, [], s1, evs⟩ ∧
    (StreamResult.connectionClosed ≠ .wsProtocolError ∧
     StreamResult.connectionClosed ≠ .ioPending) := by
  refine ⟨readFramesOp_quiet_close h m evs susp, ?_, by decide⟩
  rw [readFramesOp_quiet_fail h m ERR_CONNECTION_CLOSED evs susp]
  simp

/-- Witness for C5: the `SyncClose` / `SyncCloseWithErr` tests from the
initial stream state. -/
theorem C5_witness :
    processB initState = .ok ([], initState) ∧
    (readFramesOp [.data .sync []] initState false
        = ⟨false, .connectionClosed, [], initState, []⟩ ∧
     readFramesOp [.fail .sync ERR_CONNECTION_CLOSED] initState false
        = ⟨false, .connectionClosed, [], initState, []⟩ ∧
     (StreamResult.connectionClosed ≠ .wsProtocolError ∧
      StreamResult.connectionClosed ≠ .ioPending)) :=
  ⟨rfl, C5_close_semantics initState initState false .sync [] rfl⟩

/-- Claim C6: frames already appended to the caller's output before a close
condition is detected remain valid and are not retracted: when a complete
data frame is followed in the byte stream by connection close, one
ReadFrames call delivers that frame with result Ok, leaving the close event
unconsumed, and only the next ReadFrames call reports ConnectionClosed
(with no frames). -/
theorem C6_frame_then_close (op : Nat) (hop1 : 1 ≤ op) (hop : op < 8)
    (D : List Nat) (hL : D.length ≤ 125) (m : IoMode) :
    readFramesOp [.data m (wireFrame op D), .data m []] initState false
      = ⟨m == .async, .ok, [⟨⟨true, op, false, D.length⟩, D⟩], initState,
         [.data m []]⟩ ∧
    readFramesOp [.data m []] initState false
      = ⟨m == .async, .connectionClosed, [], initState, []⟩ := by
  constructor
  · have hW : wireFrame op D ≠ [] := by simp [wireFrame]
    rw [readFramesOp_quiet_data processB_initState hW]
    rw [show ({ initState with buffer := initState.buffer ++ wireFrame op D } : ReadState)
        = ⟨(128 + op) :: D.length :: D, false, none, none⟩ by
      simp [initState, wireFrame]]
    rw [readFramesOp_surface (processB_header_data_complete hop hL false)]
    simp [initState]
  · rw [readFramesOp_quiet_close processB_initState]
    simp

/-- Witness for C6: the sample Text frame followed by a zero-length read (the
`CloseAfterFrame` test). -/
theorem C6_witness :
    (1 ≤ 1 ∧ 1 < 8 ∧ ([83, 97, 109, 112, 108, 101] : List Nat).length ≤ 125) ∧
    (readFramesOp [.data .sync (wireFrame 1 [83, 97, 109, 112, 108, 101]),
        .data .sync []] initState false
      = ⟨false, .ok, [⟨⟨true, 1, false, 6⟩, [83, 97, 109, 112, 108, 101]⟩],
         initState, [.data .sync []]⟩ ∧
     readFramesOp [.data .sync []] initState false
      = ⟨false, .connectionClosed, [], initState, []⟩) :=
  ⟨⟨by decide, by decide, by decide⟩,
   C6_frame_then_close 1 (by decide) (by decide) [83, 97, 109, 112, 108, 101]
     (by decide) .sync⟩

/-- Claim C7: the handshake carry-over bytes are consumed exactly once,
before any new transport read, and are parsed identically to freshly read
bytes: for every nonempty carry-over `B` and every sequence of transport
events, a ReadFrames operation on a stream constructed with carry-over `B`
has exactly the same outcome (result, frames with their opcodes, final
flags, payload lengths and payloads, final state, and remaining events) as
one whose transport first delivers `B` synchronously. -/
theorem C7_carryover_equiv (B : List Nat) (hB : B ≠ []) (evs : List ReadEv) :
    readFramesOp evs (mkState B) false
      = readFramesOp (.data .sync B :: evs) initState false := by
  rw [readFramesOp_quiet_data processB_initState hB]
  rfl

/-- Witness for C7: the sample frame as carry-over (the `HttpReadBufferIsUsed`
test). -/
theorem C7_witness :
    kSampleFrame ≠ [] ∧
    readFramesOp [] (mkState kSampleFrame) false
      = readFramesOp [.data .sync kSampleFrame] initState false :=
  ⟨by decide, C7_carryover_equiv kSampleFrame (by decide) []⟩

/-- Claim C8: for WriteFrames a partial transport write is not an error: for
every partition of the serialized bytes of the frame list into positive
partial-write acceptances, the operation keeps issuing writes, consuming
every acceptance, and completes with Ok exactly when every byte of every
frame has been accepted (the initial call returns Pending iff some
acceptance is asynchronous); after any strict prefix of the partition the
operation is still pending — completion has not fired. -/
theorem C8_write_partition (gen : Nat → List Nat) (frames : List WebSocketFrame)
    (parts : List (IoMode × Nat)) (hpos : ∀ x ∈ parts, 1 ≤ x.2)
    (hsum : (parts.map (fun x => x.2)).sum = (serializeFrames gen frames).length) :
    WriteFrames gen frames (parts.map (fun x => WriteEv.accept x.1 x.2))
        = ⟨parts.any (fun x => x.1 == .async), .ok,
           (serializeFrames gen frames).length, []⟩ ∧
    ∀ k, k < parts.length →
      (WriteFrames gen frames
          ((parts.take k).map (fun x => WriteEv.accept x.1 x.2))).result
        = .ioPending := by
  constructor
  · rw [WriteFrames, writeLoop_run parts _ 0 false hpos (by omega)]
    simp
  · intro k hk
    rw [WriteFrames]
    apply writeLoop_prefix
    have hsplit : (parts.map (fun x => x.2)).sum
        = ((parts.take k).map (fun x => x.2)).sum
          + ((parts.drop k).map (fun x => x.2)).sum := by
      rw [← List.sum_append, ← List.map_append, List.take_append_drop]
    have hdne : parts.drop k ≠ [] := by
      intro hnil
      rw [List.drop_eq_nil_iff] at hnil
      omega
    obtain ⟨y, ys, hys⟩ := List.exists_cons_of_ne_nil hdne
    have hy : 1 ≤ y.2 := by
      have hmem : y ∈ parts := by
        have : y ∈ parts.drop k := by
          rw [hys]
          exact List.mem_cons_self y ys
        exact List.mem_of_mem_drop this
      exact hpos y hmem
    have hdp : 0 < ((parts.drop k).map (fun x => x.2)).sum := by
      rw [hys]
      simp only [List.map_cons, List.sum_cons]
      omega
    omega

/-- Witness for C8: the write-test frame serialized under the null masking
key, accepted in parts of 4, 4 and 3 bytes (the `WriteInBits` test). -/
theorem C8_witness :
    ((∀ x ∈ ([(IoMode.sync, 4), (IoMode.async, 4), (IoMode.async, 3)]
        : List (IoMode × Nat)), 1 ≤ x.2) ∧
     (([(IoMode.sync, 4), (IoMode.async, 4), (IoMode.async, 3)]
        : List (IoMode × Nat)).map (fun x => x.2)).sum
       = (serializeFrames nulKeyGen [kWriteTestFrame]).length) ∧
    (WriteFrames nulKeyGen [kWriteTestFrame]
        (([(IoMode.sync, 4), (IoMode.async, 4), (IoMode.async, 3)]
          : List (IoMode × Nat)).map (fun x => WriteEv.accept x.1 x.2))
        = ⟨true, .ok, (serializeFrames nulKeyGen [kWriteTestFrame]).length, []⟩ ∧
     ∀ k, k < ([(IoMode.sync, 4), (IoMode.async, 4), (IoMode.async, 3)]
        : List (IoMode × Nat)).length →
      (WriteFrames nulKeyGen [kWriteTestFrame]
          ((([(IoMode.sync, 4), (IoMode.async, 4), (IoMode.async, 3)]
            : List (IoMode × Nat)).take k).map (fun x => WriteEv.accept x.1 x.2))).result
        = .ioPending) :=
  ⟨⟨by decide, by decide⟩,
   C8_write_partition nulKeyGen [kWriteTestFrame]
     [(IoMode.sync, 4), (IoMode.async, 4), (IoMode.async, 3)]
     (by decide) (by decide)⟩

/-- Claim C9: for every Frame surfaced by ReadFrames (from any state whose
pending-control accumulator is well formed, which includes all reachable
states), `header.payload_length` equals the number of payload bytes actually
delivered in that Frame's data buffer; in particular, for the large frame of
the tests (wire-declared total length 0x7FFFFFFF) delivered in two 16-byte
chunks, the two surfaced fragments have payload_length 6 and 16 — the byte
counts available in each chunk, not the declared total. -/
theorem C9_payload_length_matches_data :
    (∀ (evs : List ReadEv) (s : ReadState) (susp : Bool), pcWf s →
      ∀ f ∈ (readFramesOp evs s susp).frames,
        f.header.payload_length = f.data.length) ∧
    (readFramesOp [.data .async (kPartialLargeFrame.take 16),
        .data .async ((kPartialLargeFrame.drop 16).take 16)] initState false).frames.map
        (fun f => (f.header.opcode, f.header.final, f.header.payload_length, f.data.length))
      = [(kOpCodeText, false, 6, 6)] ∧
    (readFramesOp
        (readFramesOp [.data .async (kPartialLargeFrame.take 16),
          .data .async ((kPartialLargeFrame.drop 16).take 16)] initState false).rest
        (readFramesOp [.data .async (kPartialLargeFrame.take 16),
          .data .async ((kPartialLargeFrame.drop 16).take 16)] initState false).state
        false).frames.map
        (fun f => (f.header.opcode, f.header.final, f.header.payload_length, f.data.length))
      = [(kOpCodeContinuation, false, 16, 16)] :=
  ⟨readFramesOp_payload_length, by decide, by decide⟩

/-- Witness for C9: the single frame surfaced for the sample Text frame. -/
theorem C9_witness :
    pcWf initState ∧
    (readFramesOp [.data .sync kSampleFrame] initState false).frames
      = [⟨⟨true, 1, false, 6⟩, [83, 97, 109, 112, 108, 101]⟩] ∧
    (⟨⟨true, 1, false, 6⟩, [83, 97, 109, 112, 108, 101]⟩ : WebSocketFrame).header.payload_length
      = (⟨⟨true, 1, false, 6⟩, [83, 97, 109, 112, 108, 101]⟩ : WebSocketFrame).data.length :=
  ⟨pcWf_none rfl, by decide,
   C9_payload_length_matches_data.1 [.data .sync kSampleFrame] initState false
     (pcWf_none rfl) _ (by decide)⟩

/-- Claim C10: ReadFrames never completes with result Ok while having
appended zero frames to the caller's output; and in the header-only-chunk
scenario (a read delivering only the 10-byte header of the large data frame,
followed by a read that would block), the output stays empty, the stream
issues the further transport read within the same operation (consuming the
blocking read event), and the operation returns Pending. -/
theorem C10_ok_implies_frames :
    (∀ (evs : List ReadEv) (s : ReadState) (susp : Bool),
      (readFramesOp evs s susp).result = .ok →
      (readFramesOp evs s susp).frames ≠ []) ∧
    readFramesOp [.data .sync (kPartialLargeFrame.take 10), .hang] initState false
      = ⟨true, .ioPending, [],
         ⟨[], false, some ⟨kOpCodeText, true, 2147483647⟩, none⟩, []⟩ :=
  ⟨readFramesOp_ok_frames, by decide⟩

/-- Witness for C10: a delivery that does complete with Ok has a nonempty
frame list. -/
theorem C10_witness :
    (readFramesOp [.data .sync kSampleFrame] initState false).result = .ok ∧
    (readFramesOp [.data .sync kSampleFrame] initState false).frames ≠ [] :=
  ⟨by decide,
   C10_ok_implies_frames.1 [.data .sync kSampleFrame] initState false (by decide)⟩
